import Mathlib

/-!
# Verification of the cysystems access-control and sequence-allocation core

This development shallowly embeds the JavaScript source of the cysystems
backend (Express + MySQL) into Lean 4 and settles the frozen claims about it.

Modelling conventions, used throughout:

* JS strings are modelled as `List Char`.  MySQL `ORDER BY col DESC LIMIT 1`
  over the ASCII identifier columns used here is binary/codepoint
  lexicographic order, modelled by `charsLt` below.
* SQL tables are modelled as Lean lists of row structures; a parameterized
  `SELECT ... WHERE` is modelled by `List.filter`/`List.any` over the list.
* `async` handlers are pure functions from their inputs (request pieces and
  the rows the queries would return) to an explicit result value; a query
  that may throw is modelled by an `Except Unit` argument where a claim
  depends on the failure path.
* JS truthiness on strings (`if (s)`) is modelled as `≠ []`; a JSON field
  that may be absent is an `Option`.
-/

namespace CySystems

/-! ## Character/string primitives (models of the JS string operations used) -/

/-- Model of the character test performed by `parseInt` when consuming
decimal digits: the codepoint lies between `'0'` (48) and `'9'` (57). -/
def isDigitChar (c : Char) : Bool :=
  48 ≤ c.toNat && c.toNat ≤ 57

/-- Numeric value of a digit character, `'0'` ↦ 0, …, `'9'` ↦ 9. -/
def charVal (c : Char) : Nat := c.toNat - 48

/-- Big-endian decimal value of a digit string (the value `parseInt`
returns on an all-digit string). -/
def charsToNat (s : List Char) : Nat :=
  s.foldl (fun a c => 10 * a + charVal c) 0

/-- Model of `parseInt(s) || 0` on the suffix strings arising here: the
decimal value of the maximal leading run of digits, `0` when there is none
(`parseInt` returns `NaN` there, which `|| 0` turns into `0`; a parse that
yields `0` is also replaced by `0` by `|| 0`, the same value).  A leading
sign or whitespace never occurs in the inputs this model is applied to. -/
def parseIntOr0 (s : List Char) : Nat :=
  charsToNat (s.takeWhile isDigitChar)

/-- Decimal digit string of a natural number, via fueled structural
recursion (`natCharsAux (n+1) n` always has enough fuel).  Models the JS
number-to-string conversion `String(n)` / template interpolation for the
non-negative integers occurring here. -/
def natCharsAux : Nat → Nat → List Char
  | 0, _ => []
  | fuel + 1, n =>
    if n < 10 then [Nat.digitChar n]
    else natCharsAux fuel (n / 10) ++ [Nat.digitChar (n % 10)]

/-- Decimal representation of `n`, e.g. `natChars 2024 = "2024".data`. -/
def natChars (n : Nat) : List Char := natCharsAux (n + 1) n

/-- Model of `String.prototype.padStart(width, c)`. -/
def padStart (s : List Char) (width : Nat) (c : Char) : List Char :=
  List.replicate (width - s.length) c ++ s

/-- `n` rendered in decimal and left-padded with `'0'` to `width`
characters: `String(n).padStart(width, '0')`. -/
def padNum (width n : Nat) : List Char := padStart (natChars n) width '0'

/-- Maximum of two naturals, written as the same branch the string
comparator uses (`if a < b then b else a`). -/
def natMax (a b : Nat) : Nat := if a < b then b else a

/-- Strict lexicographic (binary-collation) comparison of strings, the
order MySQL uses for `ORDER BY` on the ASCII identifier columns here. -/
def charsLt : List Char → List Char → Bool
  | _, [] => false
  | [], _ :: _ => true
  | a :: s, b :: t => a.toNat < b.toNat || (a.toNat == b.toNat && charsLt s t)

/-- Model of `SELECT col FROM t WHERE col LIKE 'p%' ORDER BY col DESC
LIMIT 1` applied to an already-filtered list: the lexicographically
greatest element, `none` when the list is empty. -/
def lexMax? : List (List Char) → Option (List Char)
  | [] => none
  | s :: rest => some (rest.foldl (fun a b => if charsLt a b then b else a) s)

/-- Model of `String.prototype.replace(pat, '')`: removes the first
occurrence of `pat` (scanning left to right), returns the string unchanged
when there is none. -/
def replaceFirst (pat : List Char) : List Char → List Char
  | [] => []
  | c :: rest =>
    if pat.isPrefixOf (c :: rest) then (c :: rest).drop pat.length
    else c :: replaceFirst pat rest

/-- Model of `String.prototype.split(sep)` for a single-character
separator: `splitOnChar '-' "INV-2024-0001".data = ["INV", "2024", "0001"]`
(as char lists); the split of the empty string is `[[]]`, as in JS. -/
def splitOnChar (sep : Char) : List Char → List (List Char)
  | [] => [[]]
  | c :: rest =>
    match splitOnChar sep rest with
    | [] => [[]]
    | g :: gs => if c = sep then [] :: g :: gs else (c :: g) :: gs

/-! ## Auth middleware (src/unnamed/part_004: `middleware/auth.js`)

`authenticateToken`, `authorize` and `checkResourceAccess`, embedded from
the source.  The JWT primitive `jwt.verify` is cryptographic and is
abstracted as an oracle argument `verify : List Char → Except Unit Nat`
returning the decoded `userId` on success and an error when the signature
or expiry check throws.  The `users` lookup
(`SELECT id, email, role, is_active FROM users WHERE id = ?`) is
abstracted as `usersQuery : Nat → List UserRow`. -/

/-- The fixed role enumeration of the system
(`isIn(['admin', 'manager', 'employee', 'client'])` in the user routes). -/
inductive Role where
  | admin
  | manager
  | employee
  | client
deriving DecidableEq, Repr

/-- The columns of the `users` row that `authenticateToken` selects and
attaches to `req.user`. -/
structure UserRow where
  id : Nat
  email : List Char
  role : Role
  is_active : Bool
deriving DecidableEq, Repr

/-- Result of an auth middleware: either a response with an HTTP status is
sent (`reject`), or `next()` runs with `req.user` set (`allow`). -/
inductive AuthOutcome where
  | reject (status : Nat)
  | allow (user : UserRow)
deriving DecidableEq, Repr

/-- Model of `authHeader && authHeader.split(' ')[1]` followed by the
`if (!token)` guard: `none` exactly when the guard fires.  A missing
header, a header without a second space-separated component, and an empty
second component (`undefined` and `''` are both falsy) all yield `none`. -/
def extractToken (authHeader : Option (List Char)) : Option (List Char) :=
  match authHeader with
  | none => none
  | some h =>
    let t := (splitOnChar ' ' h).getD 1 []
    if t = [] then none else some t

/-- `authenticateToken` (part_004 lines 81–104).  The `try` block covers
`jwt.verify` and the user lookup; only `jwt.verify` throws in this model
(the DB oracle is total), so the `catch` branch (status 403) is reached
exactly on verification failure. -/
def authenticateToken (authHeader : Option (List Char))
    (verify : List Char → Except Unit Nat)
    (usersQuery : Nat → List UserRow) : AuthOutcome :=
  match extractToken authHeader with
  | none => .reject 401
  | some token =>
    match verify token with
    | .error _ => .reject 403
    | .ok userId =>
      match usersQuery userId with
      | [] => .reject 401
      | u :: _ => if u.is_active then .allow u else .reject 401

/-- `authorize(...roles)` (part_004 lines 107–119): 401 when no identity
is attached, 403 when the attached identity's role is not in the allowed
list, otherwise `next()`. -/
def authorize (roles : List Role) (reqUser : Option UserRow) : AuthOutcome :=
  match reqUser with
  | none => .reject 401
  | some u => if u.role ∈ roles then .allow u else .reject 403

/-- The resource kind tag passed to `checkResourceAccess`; `other` stands
for any string not matched by the `switch` (its `default` branch). -/
inductive ResType where
  | project
  | client
  | invoice
  | other
deriving DecidableEq, Repr

/-- A `projects` row (the columns read by the middleware query). -/
structure ProjectRow where
  id : Nat
  manager_id : Nat
deriving DecidableEq, Repr

/-- A `project_tasks` row (the columns read by the middleware query). -/
structure TaskRow where
  project_id : Nat
  assigned_to : Nat
deriving DecidableEq, Repr

/-- An `invoices` row (the columns read by the middleware query). -/
structure InvoiceRow where
  id : Nat
  created_by : Nat
deriving DecidableEq, Repr

/-- The relational state consulted by `checkResourceAccess`: the `clients`
table is only probed for existence of an id, so it is a list of ids. -/
structure Db where
  clients : List Nat
  projects : List ProjectRow
  projectTasks : List TaskRow
  invoices : List InvoiceRow
deriving DecidableEq, Repr

/-- Decision of `checkResourceAccess`: `next()` or the 403 response
(`Accès non autorisé à cette ressource`).  The 500 branch of its `catch`
(DB error) is outside this model: the DB is a total oracle. -/
inductive AccessDecision where
  | grant
  | forbid
deriving DecidableEq, Repr

/-- `checkResourceAccess(resourceType)` (part_004 lines 122–175), applied
to `req.params.id = rid` and `req.user = {id := uid, role := role, ..}`:

* admins are granted unconditionally;
* `project`: `SELECT id FROM projects WHERE id = ? AND (manager_id = ? OR
  id IN (SELECT project_id FROM project_tasks WHERE assigned_to = ?))`
  must be nonempty;
* `client`: `SELECT id FROM clients WHERE id = ?` must be nonempty;
* `invoice`: `SELECT id FROM invoices WHERE id = ? AND created_by = ?`
  must be nonempty;
* any other kind: `hasAccess = true`. -/
def checkResourceAccess (rt : ResType) (db : Db) (rid uid : Nat)
    (role : Role) : AccessDecision :=
  if role = .admin then .grant
  else
    let hasAccess :=
      match rt with
      | .project =>
        db.projects.any fun p =>
          p.id == rid &&
            (p.manager_id == uid ||
              db.projectTasks.any fun t =>
                t.assigned_to == uid && t.project_id == p.id)
      | .client => db.clients.any fun c => c == rid
      | .invoice => db.invoices.any fun i => i.id == rid && i.created_by == uid
      | .other => true
    if hasAccess then .grant else .forbid

/-! ## Sequence allocators

`generateProductCode`, `generateLotNumber`, `generateSaleNumber`
(src/routes/projects.js lines 726–792) and the invoice-number route
`GET /generate-number` (src/unnamed/part_003 lines 836–859).

Each takes the rows its `SELECT ... LIKE ... ORDER BY ... DESC LIMIT 1`
query ranges over as the full column list (`db`), with the `LIKE`/`ORDER
BY`/`LIMIT` modelled by `List.filter`/`lexMax?`.  The possibility that the
query itself throws is modelled by passing `Except.error ()` instead of
the rows; the `catch` branch then runs.  `now` is `Date.now()` and `year`
is `new Date().getFullYear()`. -/

/-- The product-code prefix: `categoryId ? 'CAT' +
String(categoryId).padStart(3, '0') : 'PRD'`.  A `none`/0 category id is
falsy in JS, selecting `'PRD'`. -/
def productPfx (categoryId : Option Nat) : List Char :=
  if categoryId.getD 0 = 0 then "PRD".data
  else "CAT".data ++ padStart (natChars (categoryId.getD 0)) 3 '0'

/-- `generateProductCode(categoryId)` (projects.js lines 726–746).  On a
throwing lookup the fallback is always `'PRD' + Date.now()`, even for a
category prefix. -/
def generateProductCode (categoryId : Option Nat) (now : Nat)
    (productsQ : Except Unit (List (List Char))) : List Char :=
  match productsQ with
  | .error _ => "PRD".data ++ natChars now
  | .ok products =>
    let pfx := productPfx categoryId
    let lastProduct := lexMax? (products.filter fun s => pfx.isPrefixOf s)
    let nextNumber :=
      match lastProduct with
      | none => 1
      | some lastCode => parseIntOr0 (replaceFirst pfx lastCode) + 1
    pfx ++ padStart (natChars nextNumber) 6 '0'

/-- `generateLotNumber()` (projects.js lines 749–769); prefix
`'LOT' + year`, width 4, fallback `'LOT' + Date.now()` (without the
year). -/
def generateLotNumber (year now : Nat)
    (lotsQ : Except Unit (List (List Char))) : List Char :=
  match lotsQ with
  | .error _ => "LOT".data ++ natChars now
  | .ok lots =>
    let pfx := "LOT".data ++ natChars year
    let lastLot := lexMax? (lots.filter fun s => pfx.isPrefixOf s)
    let nextNumber :=
      match lastLot with
      | none => 1
      | some lastCode => parseIntOr0 (replaceFirst pfx lastCode) + 1
    pfx ++ padStart (natChars nextNumber) 4 '0'

/-- `generateSaleNumber()` (projects.js lines 772–792); prefix
`'SALE' + year`, width 4, fallback `'SALE' + Date.now()`. -/
def generateSaleNumber (year now : Nat)
    (salesQ : Except Unit (List (List Char))) : List Char :=
  match salesQ with
  | .error _ => "SALE".data ++ natChars now
  | .ok sales =>
    let pfx := "SALE".data ++ natChars year
    let lastSale := lexMax? (sales.filter fun s => pfx.isPrefixOf s)
    let nextNumber :=
      match lastSale with
      | none => 1
      | some lastCode => parseIntOr0 (replaceFirst pfx lastCode) + 1
    pfx ++ padStart (natChars nextNumber) 4 '0'

/-- The invoice-number route `GET /generate-number` (part_003 lines
836–859).  Returns the HTTP status and the `invoice_number` field of the
JSON body.  The filter prefix is `'INV-' + year` (no trailing dash), the
suffix is parsed by `split('-')[2]`, and the result inserts a dash:
`prefix + '-' + padded`.  The `catch` branch responds 500 with an error
body and no invoice number — there is no timestamp fallback here. -/
def generateNumberRoute (year : Nat)
    (invQ : Except Unit (List (List Char))) : Nat × Option (List Char) :=
  match invQ with
  | .error _ => (500, none)
  | .ok invoices =>
    let pfx := "INV-".data ++ natChars year
    let lastInvoice := lexMax? (invoices.filter fun s => pfx.isPrefixOf s)
    let nextNumber :=
      match lastInvoice with
      | none => 1
      | some last => parseIntOr0 ((splitOnChar '-' last).getD 2 []) + 1
    (200, some (pfx ++ "-".data ++ padStart (natChars nextNumber) 4 '0'))

/-- The invoice number produced on the success path, as a plain string
(the `invoice_number` field of the 200 response). -/
def invoiceNumberOf (year : Nat) (invoices : List (List Char)) : List Char :=
  ((generateNumberRoute year (.ok invoices)).2).getD []

/-- Modelled from the spec (§4.4), for comparison with the four source
allocators: "query the persistence layer for the lexicographically
greatest existing identifier matching that prefix; parse the trailing
numeric suffix (defaulting to 0 if none found or parse fails); increment
by one; zero-pad to a fixed width; concatenate prefix + padded number". -/
def specNextIdentifier (pfx : List Char) (width : Nat)
    (db : List (List Char)) : List Char :=
  let last := lexMax? (db.filter fun s => pfx.isPrefixOf s)
  let suffix :=
    match last with
    | none => 0
    | some s => parseIntOr0 (s.drop pfx.length)
  pfx ++ padStart (natChars (suffix + 1)) width '0'

/-- `N` strictly sequential allocation calls, each returned identifier
persisted (consed onto the table) before the next call — the scenario of
the Sequence Allocator monotonicity property. -/
def allocSeq (alloc : List (List Char) → List Char)
    (db : List (List Char)) : Nat → List (List Char)
  | 0 => []
  | n + 1 =>
    let c := alloc db
    c :: allocSeq alloc (c :: db) n

/-- Well-formed persisted state for prefix `pfx` and width `width`: every
persisted identifier the `LIKE 'pfx%'` filter can see is the prefix
followed by a `width`-padded decimal suffix in `[1, 10^width)`. -/
def WFdb (pfx : List Char) (width : Nat) (db : List (List Char)) : Prop :=
  ∀ s ∈ db, pfx.isPrefixOf s = true →
    ∃ n, 1 ≤ n ∧ n < 10 ^ width ∧ s = pfx ++ padNum width n

/-- The greatest numeric suffix among the persisted identifiers matching
`pfx` (0 when none match): the number the next allocation increments. -/
def maxSuffix (pfx : List Char) (db : List (List Char)) : Nat :=
  ((db.filter fun s => pfx.isPrefixOf s).map
    fun s => parseIntOr0 (s.drop pfx.length)).foldl natMax 0

/-! ## User update handler (src/unnamed/part_001: `routes/users.js`, PUT /:id)

The stored `users` row carries every column the handler can touch.
Columns the handler never reads or writes (`hire_date`, `created_at`,
the password hash) are omitted.  `salary` is a numeric scalar, modelled
as `Int` (its exact numeric type is irrelevant to the claims). -/

/-- A full `users` table row as seen by `PUT /users/:id`. -/
structure StoredUser where
  id : Nat
  first_name : List Char
  last_name : List Char
  email : List Char
  role : Role
  department : List Char
  position : List Char
  phone : List Char
  address : List Char
  salary : Int
  is_active : Bool
deriving DecidableEq, Repr

/-- The request body of `PUT /users/:id` after JSON parsing: `none` means
the key is absent (`undefined`).  `role` is typed by its `isIn`
validator; `isActive` is a boolean; `salary` numeric. -/
structure UserUpdateBody where
  firstName : Option (List Char)
  lastName : Option (List Char)
  email : Option (List Char)
  role : Option Role
  department : Option (List Char)
  position : Option (List Char)
  phone : Option (List Char)
  address : Option (List Char)
  salary : Option Int
  isActive : Option Bool
deriving DecidableEq, Repr

/-- JS truthiness of an optional string field: `undefined` and `''` are
falsy, every other string truthy. -/
def truthy (o : Option (List Char)) : Bool :=
  match o with
  | none => false
  | some s => !s.isEmpty

/-- The express-validator chain of `PUT /users/:id`
(`firstName`/`lastName` optional `notEmpty`, `email` optional `isEmail`,
`role` optional `isIn` (guaranteed by the `Option Role` type), `phone`
optional `isMobilePhone`, `salary` optional `isDecimal` (guaranteed by the
numeric type)).  The `isEmail`/`isMobilePhone` library predicates are
abstracted as oracles; values are taken as already trimmed/normalized. -/
def bodyValid (isEmailOk isPhoneOk : List Char → Bool)
    (b : UserUpdateBody) : Bool :=
  (match b.firstName with | none => true | some s => !s.isEmpty) &&
  (match b.lastName with | none => true | some s => !s.isEmpty) &&
  (match b.email with | none => true | some s => isEmailOk s) &&
  (match b.phone with | none => true | some s => isPhoneOk s)

/-- `if (field) updateFields.push('col = ?')` for a string column: the new
value when the field is truthy, the stored value otherwise. -/
def updStr (o : Option (List Char)) (old : List Char) : List Char :=
  match o with
  | none => old
  | some s => if s.isEmpty then old else s

/-- The row produced by the generated `UPDATE users SET ...` for the row
with the target id: each truthy string field is applied; `role` only when
the field is supplied and the actor is an admin (`if (role &&
req.user.role === 'admin')`); `salary` and `is_active` only when the field
is present (`!== undefined`) and the actor is an admin. -/
def applyUserUpdate (actorRole : Role) (b : UserUpdateBody)
    (u : StoredUser) : StoredUser :=
  { u with
    first_name := updStr b.firstName u.first_name
    last_name := updStr b.lastName u.last_name
    email := updStr b.email u.email
    role :=
      match b.role with
      | some r => if actorRole = .admin then r else u.role
      | none => u.role
    department := updStr b.department u.department
    position := updStr b.position u.position
    phone := updStr b.phone u.phone
    address := updStr b.address u.address
    salary :=
      match b.salary with
      | some v => if actorRole = .admin then v else u.salary
      | none => u.salary
    is_active :=
      match b.isActive with
      | some v => if actorRole = .admin then v else u.is_active
      | none => u.is_active }

/-- `updateFields.length === 0` check: whether at least one `push` ran, in
source order (`firstName, lastName, email, role (admin-gated), department,
position, phone, address, salary (admin-gated), isActive
(admin-gated)`). -/
def hasUpdateFields (actorRole : Role) (b : UserUpdateBody) : Bool :=
  truthy b.firstName || truthy b.lastName || truthy b.email ||
  (b.role.isSome && actorRole == .admin) ||
  truthy b.department || truthy b.position || truthy b.phone ||
  truthy b.address ||
  (b.salary.isSome && actorRole == .admin) ||
  (b.isActive.isSome && actorRole == .admin)

/-- Response of `PUT /users/:id`, in source order of the early returns:
400 on validator errors, 403 on the permission check, 404 when the target
row is absent, 400 on an email conflict, 400 when no update field
applies, and otherwise 200 with the updated table. -/
inductive PutResult where
  | validationFailed
  | forbidden
  | notFound
  | emailConflict
  | noFields
  | success (users : List StoredUser)
deriving DecidableEq, Repr

/-- `PUT /users/:id` (part_001 lines 153–250).  `actor` is `req.user`,
`targetId` is `parseInt(req.params.id)` (assumed numeric — a non-numeric
path id is out of scope), `users` the `users` table. -/
def usersPut (isEmailOk isPhoneOk : List Char → Bool) (actor : UserRow)
    (targetId : Nat) (b : UserUpdateBody)
    (users : List StoredUser) : PutResult :=
  if !bodyValid isEmailOk isPhoneOk b then .validationFailed
  else if actor.role ≠ .admin ∧ actor.id ≠ targetId then .forbidden
  else if !(users.any fun u => u.id == targetId) then .notFound
  else if truthy b.email &&
      (users.any fun u => u.email == b.email.getD [] && u.id != targetId) then
    .emailConflict
  else if !hasUpdateFields actor.role b then .noFields
  else
    .success (users.map fun u =>
      if u.id == targetId then applyUserUpdate actor.role b u else u)

/-! ## Point-of-sale handler (src/routes/projects.js, POST /sales,
lines 1216–1280)

Monetary scalars are `Int`; `current_stock` is `Int` because the handler
subtracts without any bound check.  Unread scalar columns of the `sales`
insert (customer contact fields, tax/discount details, notes) are
omitted from `SaleRow`. -/

/-- A `products` row as touched by the sale loop. -/
structure ProductRow where
  id : Nat
  current_stock : Int
deriving DecidableEq, Repr

/-- One element of the request's `items` array. -/
structure SaleItemInput where
  product_id : Nat
  quantity : Int
  unit_price : Int
  discount_percent : Option Int
  discount_amount : Option Int
  total_price : Int
deriving DecidableEq, Repr

/-- A `sale_items` row (the columns of the handler's insert). -/
structure SaleItemRow where
  sale_id : Nat
  product_id : Nat
  quantity : Int
  unit_price : Int
  discount_percent : Int
  discount_amount : Int
  total_price : Int
deriving DecidableEq, Repr

/-- `movement_type` enum of `stock_movements` (`'in'`/`'out'`). -/
inductive MovementType where
  | stockIn
  | stockOut
deriving DecidableEq, Repr

/-- `reference_type` enum of `stock_movements` as used by the handlers
(`'sale'` here, `'purchase'` in the lot handler). -/
inductive RefKind where
  | sale
  | purchase
deriving DecidableEq, Repr

/-- A `stock_movements` row (the columns of the handler's insert). -/
structure MovementRow where
  product_id : Nat
  movement_type : MovementType
  quantity : Int
  unit_cost : Int
  total_cost : Int
  reference_type : RefKind
  reference_id : Nat
  created_by : Nat
deriving DecidableEq, Repr

/-- A `sales` row (header columns read by the claims). -/
structure SaleRow where
  id : Nat
  sale_number : List Char
  total_amount : Int
  created_by : Nat
deriving DecidableEq, Repr

/-- The inventory-side relational state touched by `POST /sales`. -/
structure InvDb where
  products : List ProductRow
  sales : List SaleRow
  sale_items : List SaleItemRow
  stock_movements : List MovementRow
deriving DecidableEq, Repr

/-- One iteration of the `for (const item of items)` loop: insert the
`sale_items` row (`|| 0` defaults on the discount fields), run
`UPDATE products SET current_stock = current_stock - ? WHERE id = ?`
(unconditionally — no stock check), and insert the `'out'`/`'sale'`
`stock_movements` row referencing the sale. -/
def processSaleItem (saleId uid : Nat) (db : InvDb)
    (item : SaleItemInput) : InvDb :=
  { db with
    sale_items := db.sale_items ++
      [⟨saleId, item.product_id, item.quantity, item.unit_price,
        item.discount_percent.getD 0, item.discount_amount.getD 0,
        item.total_price⟩]
    products := db.products.map fun p =>
      if p.id == item.product_id then
        { p with current_stock := p.current_stock - item.quantity }
      else p
    stock_movements := db.stock_movements ++
      [⟨item.product_id, .stockOut, item.quantity, item.unit_price,
        item.total_price, .sale, saleId, uid⟩] }

/-- The write effects of `POST /sales` after validation and sale-number
generation: insert the `sales` header row (its id is the DB-assigned
`insertId`), then process each item in order. -/
def salesPost (uid saleId : Nat) (saleNumber : List Char)
    (totalAmount : Int) (items : List SaleItemInput) (db : InvDb) : InvDb :=
  let db1 := { db with sales := db.sales ++ [⟨saleId, saleNumber, totalAmount, uid⟩] }
  items.foldl (processSaleItem saleId uid) db1

/-- Total quantity sold of product `pid` across the request's items. -/
def soldQty (items : List SaleItemInput) (pid : Nat) : Int :=
  ((items.filter fun it => it.product_id == pid).map fun it => it.quantity).sum

/-- The `stock_movements` row the loop inserts for one item. -/
def outMovement (saleId uid : Nat) (item : SaleItemInput) : MovementRow :=
  ⟨item.product_id, .stockOut, item.quantity, item.unit_price,
    item.total_price, .sale, saleId, uid⟩

/-- The effective full invoice prefix `'INV-' + year + '-'`: the route
filters with `LIKE 'INV-{year}%'` but every identifier it generates starts
with this longer string. -/
def invPfx (year : Nat) : List Char :=
  "INV-".data ++ natChars year ++ "-".data

/-- Well-formed invoice table for `year`: every `invoice_number` the
route's `LIKE 'INV-{year}%'` filter can see is `'INV-{year}-'` followed by
a 4-padded decimal suffix in `[1, 10000)`. -/
def WFinv (year : Nat) (db : List (List Char)) : Prop :=
  ∀ s ∈ db, ("INV-".data ++ natChars year).isPrefixOf s = true →
    ∃ n, 1 ≤ n ∧ n < 10 ^ 4 ∧ s = invPfx year ++ padNum 4 n

/-! ## Infrastructure lemmas on the string primitives -/

theorem isPrefixOf_append_self (p x : List Char) :
    p.isPrefixOf (p ++ x) = true := by
  induction p with
  | nil => cases x <;> rfl
  | cons c t ih => simp [List.isPrefixOf, ih]

theorem eq_append_of_isPrefixOf {p s : List Char}
    (h : p.isPrefixOf s = true) : ∃ t, s = p ++ t := by
  induction p generalizing s with
  | nil => exact ⟨s, rfl⟩
  | cons c t ih =>
    cases s with
    | nil => simp [List.isPrefixOf] at h
    | cons b rest =>
      simp only [List.isPrefixOf, Bool.and_eq_true, beq_iff_eq] at h
      obtain ⟨t', ht'⟩ := ih h.2
      exact ⟨t', by rw [h.1, ht']; rfl⟩

theorem replaceFirst_eq_drop {p s : List Char}
    (h : p.isPrefixOf s = true) : replaceFirst p s = s.drop p.length := by
  cases s with
  | nil =>
    cases p with
    | nil => rfl
    | cons c t => simp [List.isPrefixOf] at h
  | cons c rest =>
    obtain ⟨t, ht⟩ := eq_append_of_isPrefixOf h
    simp [replaceFirst, h]

theorem charsLt_append_same (p a b : List Char) :
    charsLt (p ++ a) (p ++ b) = charsLt a b := by
  induction p with
  | nil => rfl
  | cons c t ih => simp [charsLt, ih, Nat.lt_irrefl]

theorem charsToNat_foldl (s : List Char) :
    ∀ a, s.foldl (fun a c => 10 * a + charVal c) a
      = a * 10 ^ s.length + charsToNat s := by
  induction s with
  | nil => intro a; simp [charsToNat]
  | cons c t ih =>
    intro a
    have hstep : charsToNat (c :: t)
        = t.foldl (fun a c => 10 * a + charVal c) (10 * 0 + charVal c) := rfl
    have hc : charsToNat (c :: t) = charVal c * 10 ^ t.length + charsToNat t := by
      rw [hstep, ih (10 * 0 + charVal c)]
      ring
    simp only [List.foldl_cons]
    rw [ih (10 * a + charVal c), hc, List.length_cons, pow_succ]
    ring

theorem charsToNat_cons (c : Char) (t : List Char) :
    charsToNat (c :: t) = charVal c * 10 ^ t.length + charsToNat t := by
  have hstep : charsToNat (c :: t)
      = t.foldl (fun a c => 10 * a + charVal c) (10 * 0 + charVal c) := rfl
  rw [hstep, charsToNat_foldl t (10 * 0 + charVal c)]
  ring

theorem charsToNat_append (s t : List Char) :
    charsToNat (s ++ t) = charsToNat s * 10 ^ t.length + charsToNat t := by
  simp only [charsToNat, List.foldl_append]
  exact charsToNat_foldl t _

theorem charsToNat_replicate_zero (k : Nat) :
    charsToNat (List.replicate k '0') = 0 := by
  induction k with
  | zero => rfl
  | succ n ih =>
    rw [List.replicate_succ, charsToNat_cons, ih]
    simp [charVal]

theorem charsToNat_lt (s : List Char) (h : ∀ c ∈ s, isDigitChar c = true) :
    charsToNat s < 10 ^ s.length := by
  induction s with
  | nil => simp [charsToNat]
  | cons c t ih =>
    have hc : charVal c ≤ 9 := by
      have hm := h c (List.mem_cons_self _ _)
      simp only [isDigitChar, Bool.and_eq_true, decide_eq_true_eq] at hm
      simp only [charVal]
      omega
    have ht := ih fun x hx => h x (List.mem_cons_of_mem _ hx)
    rw [charsToNat_cons, List.length_cons, pow_succ]
    nlinarith [pow_pos (show (0:Nat) < 10 by norm_num) t.length]

theorem digitChar_isDigit : ∀ d, d < 10 → isDigitChar (Nat.digitChar d) = true := by
  decide

theorem charVal_digitChar : ∀ d, d < 10 → charVal (Nat.digitChar d) = d := by
  decide

theorem natCharsAux_congr : ∀ f g n, 0 < n → n < 10 ^ f → n < 10 ^ g →
    natCharsAux f n = natCharsAux g n := by
  intro f
  induction f with
  | zero =>
    intro g n h0 hf _
    simp at hf
    omega
  | succ f ih =>
    intro g n h0 hf hg
    cases g with
    | zero =>
      simp at hg
      omega
    | succ g' =>
      by_cases hn : n < 10
      · simp [natCharsAux, hn]
      · have h10 : 10 ≤ n := by omega
        have hd0 : 0 < n / 10 := Nat.div_pos h10 (by norm_num)
        have hdf : n / 10 < 10 ^ f := by
          rw [Nat.div_lt_iff_lt_mul (by norm_num : (0:Nat) < 10)]
          calc n < 10 ^ (f + 1) := hf
            _ = 10 ^ f * 10 := pow_succ 10 f
        have hdg : n / 10 < 10 ^ g' := by
          rw [Nat.div_lt_iff_lt_mul (by norm_num : (0:Nat) < 10)]
          calc n < 10 ^ (g' + 1) := hg
            _ = 10 ^ g' * 10 := pow_succ 10 g'
        simp only [natCharsAux, if_neg hn]
        rw [ih g' (n / 10) hd0 hdf hdg]

theorem natChars_eq_aux {k n : Nat} (h0 : 0 < n) (hk : n < 10 ^ k) :
    natChars n = natCharsAux k n := by
  have hself : n < 10 ^ (n + 1) := by
    calc n < 10 ^ n := Nat.lt_pow_self (by norm_num) n
      _ ≤ 10 ^ (n + 1) := Nat.pow_le_pow_right (by norm_num) (Nat.le_succ n)
  exact natCharsAux_congr (n + 1) k n h0 hself hk

theorem length_natCharsAux_le : ∀ k n, 0 < n → n < 10 ^ k →
    (natCharsAux k n).length ≤ k := by
  intro k
  induction k with
  | zero =>
    intro n h0 hk
    simp at hk
    omega
  | succ k ih =>
    intro n h0 hk
    by_cases hn : n < 10
    · simp [natCharsAux, hn]
    · have h10 : 10 ≤ n := by omega
      have hd0 : 0 < n / 10 := Nat.div_pos h10 (by norm_num)
      have hdk : n / 10 < 10 ^ k := by
        rw [Nat.div_lt_iff_lt_mul (by norm_num : (0:Nat) < 10)]
        calc n < 10 ^ (k + 1) := hk
          _ = 10 ^ k * 10 := pow_succ 10 k
      simp only [natCharsAux, if_neg hn, List.length_append,
        List.length_singleton]
      have := ih (n / 10) hd0 hdk
      omega

theorem length_natChars_le {k n : Nat} (h0 : 0 < n) (hk : n < 10 ^ k) :
    (natChars n).length ≤ k := by
  rw [natChars_eq_aux h0 hk]
  exact length_natCharsAux_le k n h0 hk

theorem digits_natCharsAux : ∀ f n, ∀ c ∈ natCharsAux f n,
    isDigitChar c = true := by
  intro f
  induction f with
  | zero => intro n c hc; simp [natCharsAux] at hc
  | succ f ih =>
    intro n c hc
    by_cases hn : n < 10
    · simp only [natCharsAux, if_pos hn, List.mem_singleton] at hc
      rw [hc]
      exact digitChar_isDigit n hn
    · simp only [natCharsAux, if_neg hn, List.mem_append,
        List.mem_singleton] at hc
      rcases hc with hc | hc
      · exact ih (n / 10) c hc
      · rw [hc]
        exact digitChar_isDigit (n % 10) (Nat.mod_lt n (by norm_num))

theorem digits_natChars (n : Nat) : ∀ c ∈ natChars n, isDigitChar c = true :=
  digits_natCharsAux (n + 1) n

theorem charsToNat_natCharsAux : ∀ f n, 0 < n → n < 10 ^ f →
    charsToNat (natCharsAux f n) = n := by
  intro f
  induction f with
  | zero =>
    intro n h0 hf
    simp at hf
    omega
  | succ f ih =>
    intro n h0 hf
    by_cases hn : n < 10
    · simp only [natCharsAux, if_pos hn]
      rw [charsToNat_cons]
      simp [charsToNat, charVal_digitChar n hn]
    · have h10 : 10 ≤ n := by omega
      have hd0 : 0 < n / 10 := Nat.div_pos h10 (by norm_num)
      have hdf : n / 10 < 10 ^ f := by
        rw [Nat.div_lt_iff_lt_mul (by norm_num : (0:Nat) < 10)]
        calc n < 10 ^ (f + 1) := hf
          _ = 10 ^ f * 10 := pow_succ 10 f
      simp only [natCharsAux, if_neg hn]
      rw [charsToNat_append, ih (n / 10) hd0 hdf]
      have hm : charsToNat [Nat.digitChar (n % 10)] = n % 10 := by
        rw [charsToNat_cons]
        simp [charsToNat, charVal_digitChar (n % 10) (Nat.mod_lt n (by norm_num))]
      rw [hm]
      simp only [List.length_singleton, pow_one]
      omega

theorem charsToNat_natChars (n : Nat) : charsToNat (natChars n) = n := by
  rcases Nat.eq_zero_or_pos n with h0 | h0
  · subst h0
    decide
  · have hself : n < 10 ^ (n + 1) := by
      calc n < 10 ^ n := Nat.lt_pow_self (by norm_num) n
        _ ≤ 10 ^ (n + 1) := Nat.pow_le_pow_right (by norm_num) (Nat.le_succ n)
    exact charsToNat_natCharsAux (n + 1) n h0 hself

theorem digits_padNum (w n : Nat) : ∀ c ∈ padNum w n, isDigitChar c = true := by
  intro c hc
  simp only [padNum, padStart, List.mem_append, List.mem_replicate] at hc
  rcases hc with ⟨_, hc⟩ | hc
  · rw [hc]
    decide
  · exact digits_natChars n c hc

theorem charsToNat_padNum (w n : Nat) : charsToNat (padNum w n) = n := by
  simp only [padNum, padStart]
  rw [charsToNat_append, charsToNat_replicate_zero, charsToNat_natChars]
  ring

theorem length_padNum {w n : Nat} (hw : 0 < w) (hn : n < 10 ^ w) :
    (padNum w n).length = w := by
  have hlen : (natChars n).length ≤ w := by
    rcases Nat.eq_zero_or_pos n with h0 | h0
    · subst h0
      simpa [natChars, natCharsAux] using hw
    · exact length_natChars_le h0 hn
  simp only [padNum, padStart, List.length_append, List.length_replicate]
  omega

theorem takeWhile_eq_self {p : Char → Bool} {s : List Char}
    (h : ∀ c ∈ s, p c = true) : s.takeWhile p = s := by
  induction s with
  | nil => rfl
  | cons c t ih =>
    rw [List.takeWhile_cons, if_pos (h c (List.mem_cons_self _ _)),
      ih fun x hx => h x (List.mem_cons_of_mem _ hx)]

theorem parseIntOr0_padNum (w n : Nat) : parseIntOr0 (padNum w n) = n := by
  unfold parseIntOr0
  rw [takeWhile_eq_self (digits_padNum w n), charsToNat_padNum]

theorem charsLt_digits {s t : List Char} (hlen : s.length = t.length)
    (hs : ∀ c ∈ s, isDigitChar c = true) (ht : ∀ c ∈ t, isDigitChar c = true) :
    charsLt s t = decide (charsToNat s < charsToNat t) := by
  induction s generalizing t with
  | nil =>
    cases t with
    | nil => decide
    | cons b u => simp at hlen
  | cons a s' ih =>
    cases t with
    | nil => simp at hlen
    | cons b t' =>
      have hlen' : s'.length = t'.length := by simpa using hlen
      have ha := hs a (List.mem_cons_self _ _)
      have hb := ht b (List.mem_cons_self _ _)
      simp only [isDigitChar, Bool.and_eq_true, decide_eq_true_eq] at ha hb
      have hs' := fun x hx => hs x (List.mem_cons_of_mem _ hx)
      have ht' := fun x hx => ht x (List.mem_cons_of_mem _ hx)
      have hboundS : charsToNat s' < 10 ^ s'.length := charsToNat_lt s' hs'
      have hboundT : charsToNat t' < 10 ^ s'.length := by
        rw [hlen']
        exact charsToNat_lt t' ht'
      rw [charsToNat_cons, charsToNat_cons, ← hlen']
      show (decide (a.toNat < b.toNat) ||
        (a.toNat == b.toNat && charsLt s' t')) = _
      rcases Nat.lt_trichotomy a.toNat b.toNat with hab | hab | hab
      · have hv : charVal a < charVal b := by
          simp only [charVal]
          omega
        have : charVal a * 10 ^ s'.length + charsToNat s'
            < charVal b * 10 ^ s'.length + charsToNat t' := by
          have h1 : charVal a * 10 ^ s'.length + charsToNat s'
              < (charVal a + 1) * 10 ^ s'.length := by nlinarith
          have h2 : (charVal a + 1) * 10 ^ s'.length
              ≤ charVal b * 10 ^ s'.length := by
            apply Nat.mul_le_mul_right
            omega
          omega
        simp [hab, this, Nat.ne_of_lt hab]
      · have hveq : charVal a = charVal b := by
          simp only [charVal]
          omega
        have hnlt : ¬ a.toNat < b.toNat := by omega
        rw [ih hlen' hs' ht']
        rcases Nat.lt_or_ge (charsToNat s') (charsToNat t') with hc | hc
        · have h2 : charVal a * 10 ^ s'.length + charsToNat s'
              < charVal b * 10 ^ s'.length + charsToNat t' := by
            rw [hveq]
            omega
          simp [hnlt, hab, hc, h2]
        · have h1 : ¬ charsToNat s' < charsToNat t' := by omega
          have h2 : ¬ charVal a * 10 ^ s'.length + charsToNat s'
              < charVal b * 10 ^ s'.length + charsToNat t' := by
            rw [hveq]
            omega
          simp [hnlt, hab, h1, h2]
      · have hv : charVal b < charVal a := by
          simp only [charVal]
          omega
        have hnlt : ¬ a.toNat < b.toNat := by omega
        have hne : ¬ a.toNat = b.toNat := by omega
        have : ¬ charVal a * 10 ^ s'.length + charsToNat s'
            < charVal b * 10 ^ s'.length + charsToNat t' := by
          have h1 : charVal b * 10 ^ s'.length + charsToNat t'
              < (charVal b + 1) * 10 ^ s'.length := by nlinarith
          have h2 : (charVal b + 1) * 10 ^ s'.length
              ≤ charVal a * 10 ^ s'.length := by
            apply Nat.mul_le_mul_right
            omega
          omega
        simp [hnlt, hne, this]

theorem charsLt_padNum {w m n : Nat} (hw : 0 < w) (hm : m < 10 ^ w)
    (hn : n < 10 ^ w) : charsLt (padNum w m) (padNum w n) = decide (m < n) := by
  rw [charsLt_digits (by rw [length_padNum hw hm, length_padNum hw hn])
    (digits_padNum w m) (digits_padNum w n), charsToNat_padNum,
    charsToNat_padNum]

theorem charsLt_pfx_padNum (pfx : List Char) {w m n : Nat} (hw : 0 < w)
    (hm : m < 10 ^ w) (hn : n < 10 ^ w) :
    charsLt (pfx ++ padNum w m) (pfx ++ padNum w n) = decide (m < n) := by
  rw [charsLt_append_same, charsLt_padNum hw hm hn]

theorem natMax_eq_right {a b : Nat} (h : a < b) : natMax a b = b := by
  simp [natMax, h]

theorem natMax_eq_left {a b : Nat} (h : b ≤ a) : natMax a b = a := by
  simp only [natMax]
  rw [if_neg (by omega)]

theorem natMax_zero_left (b : Nat) : natMax 0 b = b := by
  simp only [natMax]
  split <;> omega

theorem natMax_assoc (a b c : Nat) :
    natMax (natMax a b) c = natMax a (natMax b c) := by
  simp only [natMax]
  split_ifs <;> omega

theorem natMax_lt {a b c : Nat} (ha : a < c) (hb : b < c) : natMax a b < c := by
  simp only [natMax]
  split <;> assumption

theorem natMax_cases (a b : Nat) : natMax a b = a ∨ natMax a b = b := by
  simp only [natMax]
  split
  · right; rfl
  · left; rfl

theorem foldlMax_mem : ∀ (rest : List (List Char)) (a : List Char),
    rest.foldl (fun x y => if charsLt x y then y else x) a ∈ a :: rest := by
  intro rest
  induction rest with
  | nil => intro a; simp
  | cons b t ih =>
    intro a
    simp only [List.foldl_cons]
    by_cases hab : charsLt a b = true
    · rw [if_pos hab]
      rcases List.mem_cons.mp (ih b) with h | h
      · simp [h]
      · simp [h]
    · rw [if_neg hab]
      rcases List.mem_cons.mp (ih a) with h | h
      · simp [h]
      · simp [h]

theorem lexMax?_mem {l : List (List Char)} {m : List Char}
    (h : lexMax? l = some m) : m ∈ l := by
  cases l with
  | nil => simp [lexMax?] at h
  | cons s rest =>
    simp only [lexMax?, Option.some.injEq] at h
    rw [← h]
    exact foldlMax_mem rest s

theorem foldlMax_map (f : Nat → List Char) (P : Nat → Prop)
    (hf : ∀ a b, P a → P b → charsLt (f a) (f b) = decide (a < b)) :
    ∀ (ns : List Nat) (n₀ : Nat), (∀ n ∈ ns, P n) → P n₀ →
      (ns.map f).foldl (fun x y => if charsLt x y then y else x) (f n₀)
        = f (ns.foldl natMax n₀) := by
  intro ns
  induction ns with
  | nil => intro n₀ _ _; rfl
  | cons b t ih =>
    intro n₀ hns hn₀
    have hb : P b := hns b (List.mem_cons_self _ _)
    have ht : ∀ n ∈ t, P n := fun n hn => hns n (List.mem_cons_of_mem _ hn)
    have hcmp : (if charsLt (f n₀) (f b) then f b else f n₀)
        = f (natMax n₀ b) := by
      rw [hf n₀ b hn₀ hb]
      by_cases h : n₀ < b
      · rw [if_pos (by simpa using h), natMax_eq_right h]
      · rw [if_neg (by simpa using h), natMax_eq_left (by omega)]
    have hmaxP : P (natMax n₀ b) := by
      rcases natMax_cases n₀ b with h | h
      · rw [h]; exact hn₀
      · rw [h]; exact hb
    simp only [List.map_cons, List.foldl_cons]
    rw [hcmp, ih (natMax n₀ b) ht hmaxP]

theorem exists_map_of_forall {α : Type} {l : List (List Char)}
    {f : α → List Char} {P : α → Prop}
    (h : ∀ x ∈ l, ∃ n, P n ∧ x = f n) :
    ∃ ns : List α, l = ns.map f ∧ ∀ n ∈ ns, P n := by
  induction l with
  | nil => exact ⟨[], rfl, by simp⟩
  | cons s t ih =>
    obtain ⟨n, hPn, hsn⟩ := h s (List.mem_cons_self _ _)
    obtain ⟨ns, hmap, hP⟩ := ih fun x hx => h x (List.mem_cons_of_mem _ hx)
    refine ⟨n :: ns, ?_, ?_⟩
    · simp [hsn, hmap]
    · intro m hm
      rcases List.mem_cons.mp hm with h | h
      · rw [h]; exact hPn
      · exact hP m h

theorem foldl_max_init (l : List Nat) :
    ∀ a, l.foldl natMax a = natMax a (l.foldl natMax 0) := by
  induction l with
  | nil =>
    intro a
    simp only [List.foldl_nil, natMax]
    rw [if_neg (by omega)]
  | cons b t ih =>
    intro a
    simp only [List.foldl_cons]
    rw [ih (natMax a b), ih (natMax 0 b), natMax_zero_left, natMax_assoc]

theorem foldl_max_lt {b : Nat} (l : List Nat) :
    ∀ a, a < b → (∀ n ∈ l, n < b) → l.foldl natMax a < b := by
  induction l with
  | nil => intro a ha _; simpa using ha
  | cons m t ih =>
    intro a ha hl
    simp only [List.foldl_cons]
    apply ih
    · exact natMax_lt ha (hl m (List.mem_cons_self _ _))
    · exact fun n hn => hl n (List.mem_cons_of_mem _ hn)

theorem parse_of_padded (pfx : List Char) (w n : Nat) :
    parseIntOr0 ((pfx ++ padNum w n).drop pfx.length) = n := by
  rw [List.drop_left, parseIntOr0_padNum]

theorem maxSuffix_of_map {pfx : List Char} {w : Nat} {db : List (List Char)}
    {ns : List Nat}
    (hfil : db.filter (fun s => pfx.isPrefixOf s)
      = ns.map fun n => pfx ++ padNum w n) :
    maxSuffix pfx db = ns.foldl natMax 0 := by
  unfold maxSuffix
  rw [hfil, List.map_map]
  have hcomp : ns.map ((fun s => parseIntOr0 (s.drop pfx.length))
      ∘ fun n => pfx ++ padNum w n) = ns := by
    have hpt : ∀ n ∈ ns, ((fun s => parseIntOr0 (s.drop pfx.length))
        ∘ fun n => pfx ++ padNum w n) n = id n :=
      fun n _ => parse_of_padded pfx w n
    rw [List.map_congr_left hpt, List.map_id]
  rw [hcomp]

theorem WF_filter_map {pfx : List Char} {w : Nat} {db : List (List Char)}
    (hwf : WFdb pfx w db) :
    ∃ ns : List Nat,
      db.filter (fun s => pfx.isPrefixOf s)
        = ns.map (fun n => pfx ++ padNum w n)
      ∧ ∀ n ∈ ns, 1 ≤ n ∧ n < 10 ^ w := by
  apply exists_map_of_forall
  intro x hx
  have hmem := List.mem_filter.mp hx
  obtain ⟨n, h1, h2, h3⟩ := hwf x hmem.1 hmem.2
  exact ⟨n, ⟨h1, h2⟩, h3⟩

theorem maxSuffix_cons (pfx : List Char) (w n : Nat) (db : List (List Char)) :
    maxSuffix pfx ((pfx ++ padNum w n) :: db) = natMax n (maxSuffix pfx db) := by
  unfold maxSuffix
  rw [List.filter_cons_of_pos (isPrefixOf_append_self pfx (padNum w n))]
  simp only [List.map_cons, List.foldl_cons, natMax_zero_left,
    parse_of_padded]
  exact foldl_max_init _ _

theorem specNext_step (pfx : List Char) {w : Nat} (hw : 0 < w)
    {db : List (List Char)} (hwf : WFdb pfx w db) :
    specNextIdentifier pfx w db = pfx ++ padNum w (maxSuffix pfx db + 1) := by
  obtain ⟨ns, hfil, hns⟩ := WF_filter_map hwf
  unfold specNextIdentifier
  rw [maxSuffix_of_map hfil, hfil]
  cases ns with
  | nil => rfl
  | cons n₀ rest =>
    have hmax := foldlMax_map (fun n => pfx ++ padNum w n)
      (fun n => 1 ≤ n ∧ n < 10 ^ w)
      (fun a b ha hb => charsLt_pfx_padNum pfx hw ha.2 hb.2)
      rest n₀ (fun n hn => hns n (List.mem_cons_of_mem _ hn))
      (hns n₀ (List.mem_cons_self _ _))
    simp only [List.map_cons, lexMax?]
    rw [hmax, parse_of_padded]
    simp only [List.foldl_cons, natMax_zero_left]
    rfl

theorem genProduct_eq_spec (cid : Option Nat) (now : Nat)
    (db : List (List Char)) :
    generateProductCode cid now (.ok db)
      = specNextIdentifier (productPfx cid) 6 db := by
  unfold generateProductCode specNextIdentifier
  cases h : lexMax? (db.filter fun s => (productPfx cid).isPrefixOf s) with
  | none => simp [h]
  | some m =>
    have hmem := lexMax?_mem h
    have hpre : (productPfx cid).isPrefixOf m = true :=
      (List.mem_filter.mp hmem).2
    simp [h, replaceFirst_eq_drop hpre]

theorem genLot_eq_spec (year now : Nat) (db : List (List Char)) :
    generateLotNumber year now (.ok db)
      = specNextIdentifier ("LOT".data ++ natChars year) 4 db := by
  unfold generateLotNumber specNextIdentifier
  cases h : lexMax? (db.filter fun s =>
      ('L' :: 'O' :: 'T' :: natChars year).isPrefixOf s) with
  | none => simp [h]
  | some m =>
    have hmem := lexMax?_mem h
    have hpre : ('L' :: 'O' :: 'T' :: natChars year).isPrefixOf m = true :=
      (List.mem_filter.mp hmem).2
    simp [h, replaceFirst_eq_drop hpre]

theorem genSale_eq_spec (year now : Nat) (db : List (List Char)) :
    generateSaleNumber year now (.ok db)
      = specNextIdentifier ("SALE".data ++ natChars year) 4 db := by
  unfold generateSaleNumber specNextIdentifier
  cases h : lexMax? (db.filter fun s =>
      ('S' :: 'A' :: 'L' :: 'E' :: natChars year).isPrefixOf s) with
  | none => simp [h]
  | some m =>
    have hmem := lexMax?_mem h
    have hpre : ('S' :: 'A' :: 'L' :: 'E' :: natChars year).isPrefixOf m = true :=
      (List.mem_filter.mp hmem).2
    simp [h, replaceFirst_eq_drop hpre]

theorem splitOnChar_ne_nil (sep : Char) (s : List Char) :
    splitOnChar sep s ≠ [] := by
  cases s with
  | nil => simp [splitOnChar]
  | cons c t =>
    simp only [splitOnChar]
    cases splitOnChar sep t with
    | nil => simp
    | cons g gs =>
      by_cases h : c = sep
      · simp [h]
      · simp [h]

theorem splitOnChar_no_sep {sep : Char} {s : List Char}
    (h : ∀ c ∈ s, ¬ c = sep) : splitOnChar sep s = [s] := by
  induction s with
  | nil => rfl
  | cons c t ih =>
    have ht := ih fun x hx => h x (List.mem_cons_of_mem _ hx)
    simp only [splitOnChar, ht]
    rw [if_neg (h c (List.mem_cons_self _ _))]

theorem splitOnChar_append_sep {sep : Char} {u v : List Char}
    (h : ∀ c ∈ u, ¬ c = sep) :
    splitOnChar sep (u ++ sep :: v) = u :: splitOnChar sep v := by
  induction u with
  | nil =>
    simp only [List.nil_append, splitOnChar]
    cases hv : splitOnChar sep v with
    | nil => exact absurd hv (splitOnChar_ne_nil sep v)
    | cons g gs => simp
  | cons c t ih =>
    have ht := ih fun x hx => h x (List.mem_cons_of_mem _ hx)
    have hgoal : splitOnChar sep ((c :: t) ++ sep :: v)
        = match splitOnChar sep (t ++ sep :: v) with
          | [] => [[]]
          | g :: gs => if c = sep then [] :: g :: gs else (c :: g) :: gs := rfl
    rw [hgoal, ht]
    simp only []
    rw [if_neg (h c (List.mem_cons_self _ _))]

theorem ne_dash_of_digit {c : Char} (h : isDigitChar c = true) : ¬ c = '-' := by
  intro he
  subst he
  simp [isDigitChar] at h

theorem isPrefixOf_of_inv {year : Nat} {s : List Char}
    (h : (invPfx year).isPrefixOf s = true) :
    ("INV-".data ++ natChars year).isPrefixOf s = true := by
  obtain ⟨t, rfl⟩ := eq_append_of_isPrefixOf h
  have hshape : invPfx year ++ t
      = ("INV-".data ++ natChars year) ++ ("-".data ++ t) := by
    simp [invPfx, List.append_assoc]
  rw [hshape]
  exact isPrefixOf_append_self _ _

theorem invoiceNumberOf_eq_spec (year : Nat) {db : List (List Char)}
    (hwf : WFinv year db) :
    invoiceNumberOf year db = specNextIdentifier (invPfx year) 4 db := by
  have hfeq : ∀ s ∈ db,
      (("INV-".data ++ natChars year).isPrefixOf s)
        = ((invPfx year).isPrefixOf s) := by
    intro s hs
    by_cases h : ("INV-".data ++ natChars year).isPrefixOf s = true
    · obtain ⟨n, _, _, h3⟩ := hwf s hs h
      rw [h, h3]
      exact (isPrefixOf_append_self _ _).symm
    · have h2 : ¬ (invPfx year).isPrefixOf s = true :=
        fun hq => h (isPrefixOf_of_inv hq)
      rw [Bool.not_eq_true] at h h2
      rw [h, h2]
  have hfil : db.filter (fun s => ("INV-".data ++ natChars year).isPrefixOf s)
      = db.filter (fun s => (invPfx year).isPrefixOf s) :=
    List.filter_congr hfeq
  simp only [invoiceNumberOf, generateNumberRoute, specNextIdentifier]
  rw [hfil]
  cases h : lexMax? (db.filter fun s => (invPfx year).isPrefixOf s) with
  | none => simp [invPfx, List.append_assoc]
  | some m =>
    have hmem := lexMax?_mem h
    have hdb : m ∈ db := (List.mem_filter.mp hmem).1
    have hq : (invPfx year).isPrefixOf m = true := (List.mem_filter.mp hmem).2
    obtain ⟨n, _, _, h3⟩ := hwf m hdb (isPrefixOf_of_inv hq)
    have hm : m = "INV".data ++ '-' :: (natChars year ++ '-' :: padNum 4 n) := by
      rw [h3]
      simp [invPfx, List.append_assoc]
    have hsplit : splitOnChar '-' m = ["INV".data, natChars year, padNum 4 n] := by
      rw [hm, splitOnChar_append_sep (by decide),
        splitOnChar_append_sep
          (fun c hc => ne_dash_of_digit (digits_natChars year c hc)),
        splitOnChar_no_sep
          (fun c hc => ne_dash_of_digit (digits_padNum 4 n c hc))]
    have hlen : (invPfx year).length
        = (natChars year).length + 1 + 1 + 1 + 1 + 1 := by
      simp [invPfx]
    have hdrop : List.drop ((natChars year).length + 1 + 1 + 1 + 1 + 1) m
        = padNum 4 n := by
      rw [← hlen, h3, List.drop_left]
    simp [h, hsplit, hdrop, parseIntOr0_padNum, invPfx, List.append_assoc]

theorem WFdb_cons {pfx : List Char} {w : Nat} {db : List (List Char)} {n : Nat}
    (hwf : WFdb pfx w db) (h1 : 1 ≤ n) (h2 : n < 10 ^ w) :
    WFdb pfx w ((pfx ++ padNum w n) :: db) := by
  intro s hs hp
  rcases List.mem_cons.mp hs with h | h
  · exact ⟨n, h1, h2, h⟩
  · exact hwf s h hp

theorem WFinv_cons {year : Nat} {db : List (List Char)} {n : Nat}
    (hwf : WFinv year db) (h1 : 1 ≤ n) (h2 : n < 10 ^ 4) :
    WFinv year ((invPfx year ++ padNum 4 n) :: db) := by
  intro s hs hp
  rcases List.mem_cons.mp hs with h | h
  · exact ⟨n, h1, h2, h⟩
  · exact hwf s h hp

theorem allocSeq_consecutive (alloc : List (List Char) → List Char)
    (pfx : List Char) (w : Nat)
    (Inv : List (List Char) → Prop)
    (hstep : ∀ db, Inv db → alloc db = pfx ++ padNum w (maxSuffix pfx db + 1))
    (hpres : ∀ db n, Inv db → 1 ≤ n → n < 10 ^ w →
      Inv ((pfx ++ padNum w n) :: db)) :
    ∀ N db, Inv db → maxSuffix pfx db + N < 10 ^ w →
      allocSeq alloc db N
        = (List.range N).map fun i => pfx ++ padNum w (maxSuffix pfx db + 1 + i) := by
  intro N
  induction N with
  | zero => intro db _ _; simp [allocSeq]
  | succ N ih =>
    intro db hInv hbound
    have hM1lt : maxSuffix pfx db + 1 < 10 ^ w := by omega
    have halloc := hstep db hInv
    have hInv' := hpres db (maxSuffix pfx db + 1) hInv (by omega) hM1lt
    have hmax' : maxSuffix pfx ((pfx ++ padNum w (maxSuffix pfx db + 1)) :: db)
        = maxSuffix pfx db + 1 := by
      rw [maxSuffix_cons, natMax_eq_left (by omega)]
    have hbound' :
        maxSuffix pfx ((pfx ++ padNum w (maxSuffix pfx db + 1)) :: db) + N
          < 10 ^ w := by
      rw [hmax']
      omega
    have htail : List.map
        ((fun i => pfx ++ padNum w (maxSuffix pfx db + 1 + i)) ∘ Nat.succ)
        (List.range N)
        = List.map (fun i => pfx ++ padNum w (maxSuffix pfx db + 1 + 1 + i))
          (List.range N) := by
      apply List.map_congr_left
      intro i _
      simp only [Function.comp_apply]
      exact congrArg (fun k => pfx ++ padNum w k) (by omega)
    show alloc db :: allocSeq alloc (alloc db :: db) N = _
    rw [halloc, ih _ hInv' hbound', hmax']
    rw [List.range_succ_eq_map, List.map_cons, List.map_map, htail,
      Nat.add_zero]

theorem WFdb_of_WFinv {year : Nat} {db : List (List Char)}
    (hwf : WFinv year db) : WFdb (invPfx year) 4 db := by
  intro s hs hp
  exact hwf s hs (isPrefixOf_of_inv hp)

theorem genProduct_step (cid : Option Nat) (now : Nat) {db : List (List Char)}
    (hwf : WFdb (productPfx cid) 6 db) :
    generateProductCode cid now (.ok db)
      = productPfx cid ++ padNum 6 (maxSuffix (productPfx cid) db + 1) := by
  rw [genProduct_eq_spec, specNext_step _ (by norm_num) hwf]

theorem genLot_step (year now : Nat) {db : List (List Char)}
    (hwf : WFdb ("LOT".data ++ natChars year) 4 db) :
    generateLotNumber year now (.ok db)
      = ("LOT".data ++ natChars year)
        ++ padNum 4 (maxSuffix ("LOT".data ++ natChars year) db + 1) := by
  rw [genLot_eq_spec, specNext_step _ (by norm_num) hwf]

theorem genSale_step (year now : Nat) {db : List (List Char)}
    (hwf : WFdb ("SALE".data ++ natChars year) 4 db) :
    generateSaleNumber year now (.ok db)
      = ("SALE".data ++ natChars year)
        ++ padNum 4 (maxSuffix ("SALE".data ++ natChars year) db + 1) := by
  rw [genSale_eq_spec, specNext_step _ (by norm_num) hwf]

theorem invoice_step (year : Nat) {db : List (List Char)}
    (hwf : WFinv year db) :
    invoiceNumberOf year db
      = invPfx year ++ padNum 4 (maxSuffix (invPfx year) db + 1) := by
  rw [invoiceNumberOf_eq_spec year hwf,
    specNext_step _ (by norm_num) (WFdb_of_WFinv hwf)]

theorem any_beq_iff_mem {l : List Nat} {rid : Nat} :
    (l.any fun c => c == rid) = true ↔ rid ∈ l := by
  rw [List.any_eq_true]
  constructor
  · rintro ⟨x, hx, hbx⟩
    rw [beq_iff_eq] at hbx
    rw [← hbx]
    exact hx
  · intro hx
    exact ⟨rid, hx, by simp⟩

theorem updStr_of_some {s old : List Char} (hne : s ≠ []) :
    updStr (some s) old = s := by
  unfold updStr
  cases s with
  | nil => exact absurd rfl hne
  | cons c t => rfl

theorem foldl_process_movements (saleId uid : Nat) :
    ∀ (items : List SaleItemInput) (db : InvDb),
      (items.foldl (processSaleItem saleId uid) db).stock_movements
        = db.stock_movements ++ items.map (outMovement saleId uid) := by
  intro items
  induction items with
  | nil => intro db; simp
  | cons it rest ih =>
    intro db
    simp only [List.foldl_cons, List.map_cons]
    rw [ih]
    simp [processSaleItem, outMovement, List.append_assoc]

theorem soldQty_cons (it : SaleItemInput) (rest : List SaleItemInput)
    (pid : Nat) :
    soldQty (it :: rest) pid
      = (if it.product_id == pid then it.quantity else 0) + soldQty rest pid := by
  unfold soldQty
  rw [List.filter_cons]
  by_cases h : it.product_id == pid
  · simp [h]
  · simp [h]

theorem foldl_process_products (saleId uid : Nat) :
    ∀ (items : List SaleItemInput) (db : InvDb),
      (items.foldl (processSaleItem saleId uid) db).products
        = db.products.map fun p =>
            { p with current_stock := p.current_stock - soldQty items p.id } := by
  intro items
  induction items with
  | nil =>
    intro db
    simp only [List.foldl_nil]
    have hpt : ∀ p ∈ db.products,
        ({ p with current_stock := p.current_stock - soldQty [] p.id }
          : ProductRow) = id p := by
      intro p _
      simp [soldQty]
    rw [List.map_congr_left hpt, List.map_id]
  | cons it rest ih =>
    intro db
    simp only [List.foldl_cons]
    rw [ih]
    simp only [processSaleItem, List.map_map]
    apply List.map_congr_left
    intro p _
    obtain ⟨pid0, ps0⟩ := p
    simp only [Function.comp_apply]
    by_cases h : pid0 == it.product_id
    · have h' : pid0 = it.product_id := by simpa using h
      have hpid : (it.product_id == pid0) = true := by
        rw [beq_iff_eq]
        omega
      rw [if_pos h, soldQty_cons]
      show ProductRow.mk pid0 (ps0 - it.quantity - soldQty rest pid0)
        = ProductRow.mk pid0
          (ps0 - ((if it.product_id == pid0 then it.quantity else 0)
            + soldQty rest pid0))
      rw [if_pos hpid]
      exact congrArg (ProductRow.mk pid0) (by omega)
    · have h' : ¬ pid0 = it.product_id := by simpa using h
      have hpid : (it.product_id == pid0) = false := by
        rw [beq_eq_false_iff_ne]
        omega
      rw [if_neg h, soldQty_cons]
      show ProductRow.mk pid0 (ps0 - soldQty rest pid0)
        = ProductRow.mk pid0
          (ps0 - ((if it.product_id == pid0 then it.quantity else 0)
            + soldQty rest pid0))
      simp only [hpid, Bool.false_eq_true, if_false]
      exact congrArg (ProductRow.mk pid0) (by omega)

/-! ## Claim theorems -/

/-- C1 (counterexample): the claim says a token failing signature or
expiry verification is answered with HTTP 401 and that 403 is never
returned for an authentication failure.  At the concrete request below —
a well-formed `Authorization: Bearer sometoken` header whose token fails
`jwt.verify` — `authenticateToken` responds 403 (the `catch` branch,
part_004 line 102), not 401, so the claim is false. -/
theorem claim1_counterexample :
    authenticateToken (some ("Bearer sometoken").data)
      (fun _ => .error ()) (fun _ => []) = .reject 403
    ∧ authenticateToken (some ("Bearer sometoken").data)
      (fun _ => .error ()) (fun _ => []) ≠ .reject 401 := by
  exact ⟨rfl, by decide⟩

/-- C1 (amended): `authenticateToken` responds 401 when the request
carries no (or an empty) bearer token, 403 — not 401 — when the supplied
token fails signature or expiry verification, and a 403 rejection occurs
exactly on such a verification failure. -/
theorem claim1_amended (authHeader : Option (List Char))
    (verify : List Char → Except Unit Nat)
    (usersQuery : Nat → List UserRow) :
    (extractToken authHeader = none →
      authenticateToken authHeader verify usersQuery = .reject 401)
    ∧ (∀ t e, extractToken authHeader = some t → verify t = .error e →
      authenticateToken authHeader verify usersQuery = .reject 403)
    ∧ (authenticateToken authHeader verify usersQuery = .reject 403 →
      ∃ t e, extractToken authHeader = some t ∧ verify t = .error e) := by
  unfold authenticateToken
  refine ⟨?_, ?_, ?_⟩
  · intro h
    rw [h]
  · intro t e h1 h2
    simp only [h1, h2]
  · intro h
    cases hx : extractToken authHeader with
    | none =>
      simp only [hx] at h
      exact absurd h (by decide)
    | some t =>
      simp only [hx] at h
      cases hv : verify t with
      | error e => exact ⟨t, e, rfl, hv⟩
      | ok uid =>
        simp only [hv] at h
        cases hu : usersQuery uid with
        | nil =>
          simp only [hu] at h
          exact absurd h (by decide)
        | cons u rest =>
          simp only [hu] at h
          by_cases hact : u.is_active = true
          · rw [if_pos hact] at h
            exact absurd h (by simp)
          · rw [if_neg hact] at h
            exact absurd h (by decide)

/-- C1 (witness): the amended statement applied at concrete requests —
an invalid token is answered 403, a missing header 401. -/
theorem claim1_amended_witness :
    authenticateToken (some ("Bearer tok").data)
      (fun _ => .error ()) (fun _ => []) = .reject 403
    ∧ authenticateToken none
      (fun _ : List Char => (.error () : Except Unit Nat))
      (fun _ => ([] : List UserRow)) = .reject 401 := by
  constructor
  · exact (claim1_amended (some ("Bearer tok").data)
      (fun _ => .error ()) (fun _ => [])).2.1
      ("tok").data () (by decide) rfl
  · exact (claim1_amended none (fun _ => .error ()) (fun _ => [])).1 rfl

/-- C2 (counterexample): the claim says the `client` resource kind is
granted unconditionally to every authenticated non-admin identity for
every client id, with no condition on the relational state.  With an
empty `clients` table, an employee requesting client id 1 is denied
(403): `checkResourceAccess` runs `SELECT id FROM clients WHERE id = ?`
and denies when no row exists, so the grant does depend on the relational
state. -/
theorem claim2_counterexample :
    checkResourceAccess .client ⟨[], [], [], []⟩ 1 2 .employee
      = .forbid := by
  decide

/-- C2 (amended): for a non-admin identity, the `client` resource kind is
granted exactly when a `clients` row with the requested id exists; no
ownership relation between the identity and the client is consulted. -/
theorem claim2_amended (db : Db) (rid uid : Nat) (role : Role)
    (hrole : role ≠ .admin) :
    checkResourceAccess .client db rid uid role = .grant
      ↔ rid ∈ db.clients := by
  unfold checkResourceAccess
  rw [if_neg hrole]
  cases hb : db.clients.any fun c => c == rid with
  | true =>
    have hm : rid ∈ db.clients := any_beq_iff_mem.mp hb
    simp [hm]
  | false =>
    have hm : ¬ rid ∈ db.clients := fun hmem =>
      by rw [any_beq_iff_mem.mpr hmem] at hb; cases hb
    simp [hm]

/-- C2 (witness): the amended statement applied at a concrete state — an
employee is granted access to client 5 exactly because row 5 exists. -/
theorem claim2_amended_witness :
    checkResourceAccess .client ⟨[5], [], [], []⟩ 5 1 .employee = .grant :=
  (claim2_amended ⟨[5], [], [], []⟩ 5 1 .employee (by decide)).mpr
    (by decide)

/-- C3: for the `project` resource kind, access is granted exactly when
the identity is an admin, the project manager of the requested project
row, or assigned to a `project_tasks` row of that project; in every other
case the decision is the 403 `forbid`.  This covers all four scenarios of
the claim: manager granted, task-assignee granted, unrelated identity
denied, admin always granted. -/
theorem claim3_project_access (db : Db) (rid uid : Nat) (role : Role) :
    (checkResourceAccess .project db rid uid role = .grant ↔
      (role = .admin ∨ ∃ p ∈ db.projects, p.id = rid ∧
        (p.manager_id = uid ∨ ∃ t ∈ db.projectTasks,
          t.assigned_to = uid ∧ t.project_id = rid)))
    ∧ (checkResourceAccess .project db rid uid role = .forbid ↔
      ¬ (role = .admin ∨ ∃ p ∈ db.projects, p.id = rid ∧
        (p.manager_id = uid ∨ ∃ t ∈ db.projectTasks,
          t.assigned_to = uid ∧ t.project_id = rid))) := by
  unfold checkResourceAccess
  by_cases hr : role = .admin
  · simp [hr]
  · rw [if_neg hr]
    have hany : (db.projects.any fun p =>
        p.id == rid && (p.manager_id == uid ||
          db.projectTasks.any fun t =>
            t.assigned_to == uid && t.project_id == p.id)) = true
        ↔ (∃ p ∈ db.projects, p.id = rid ∧
          (p.manager_id = uid ∨ ∃ t ∈ db.projectTasks,
            t.assigned_to = uid ∧ t.project_id = rid)) := by
      rw [List.any_eq_true]
      constructor
      · rintro ⟨p, hp, hcond⟩
        simp only [Bool.and_eq_true, Bool.or_eq_true, beq_iff_eq,
          List.any_eq_true] at hcond
        obtain ⟨hid, hrest⟩ := hcond
        refine ⟨p, hp, hid, ?_⟩
        rcases hrest with hmgr | ⟨t, ht, ha, hpid⟩
        · exact Or.inl hmgr
        · exact Or.inr ⟨t, ht, ha, by rw [hpid, hid]⟩
      · rintro ⟨p, hp, hid, hrest⟩
        refine ⟨p, hp, ?_⟩
        simp only [Bool.and_eq_true, Bool.or_eq_true, beq_iff_eq,
          List.any_eq_true]
        refine ⟨hid, ?_⟩
        rcases hrest with hmgr | ⟨t, ht, ha, hpid⟩
        · exact Or.inl hmgr
        · exact Or.inr ⟨t, ht, ha, by rw [hpid, hid]⟩
    cases hA : (db.projects.any fun p =>
        p.id == rid && (p.manager_id == uid ||
          db.projectTasks.any fun t =>
            t.assigned_to == uid && t.project_id == p.id)) with
    | true =>
      have hP := hany.mp hA
      simp [hA, hr, hP]
    | false =>
      have hnP : ¬ (∃ p ∈ db.projects, p.id = rid ∧
          (p.manager_id = uid ∨ ∃ t ∈ db.projectTasks,
            t.assigned_to = uid ∧ t.project_id = rid)) := fun hp =>
        by rw [hany.mpr hp] at hA; cases hA
      simp [hA, hr, hnP]

/-- C7: `authorize` permits a request exactly when the attached
identity has a role in the declared allowed-role list, and otherwise
denies with 403 — the closed-world property over the fixed role
enumeration. -/
theorem claim7_authorize (roles : List Role) (u : UserRow) :
    (authorize roles (some u) = .allow u ↔ u.role ∈ roles)
    ∧ (authorize roles (some u) = .reject 403 ↔ ¬ u.role ∈ roles) := by
  unfold authorize
  by_cases h : u.role ∈ roles
  · simp [h]
  · simp [h]

/-- C8: a token that extracts and verifies successfully but whose
asserted user id resolves to no row, or to an inactive row, is rejected
with 401 and no identity is attached (the middleware never reaches
`req.user = users[0]; next()`). -/
theorem claim8_stale_identity (authHeader : Option (List Char))
    (verify : List Char → Except Unit Nat)
    (usersQuery : Nat → List UserRow) (t : List Char) (uid : Nat)
    (h1 : extractToken authHeader = some t)
    (h2 : verify t = .ok uid)
    (h3 : usersQuery uid = [] ∨
      ∃ u rest, usersQuery uid = u :: rest ∧ u.is_active = false) :
    authenticateToken authHeader verify usersQuery = .reject 401
    ∧ ∀ u, authenticateToken authHeader verify usersQuery ≠ .allow u := by
  unfold authenticateToken
  simp only [h1, h2]
  rcases h3 with h3 | ⟨u, rest, h3, hact⟩
  · simp only [h3]
    exact ⟨by simp, fun u h => by simp at h⟩
  · simp only [h3]
    rw [if_neg (by simp [hact])]
    exact ⟨by simp, fun v h => by simp at h⟩

/-- C8 (witness): concrete deactivated and deleted accounts are both
answered 401. -/
theorem claim8_witness :
    authenticateToken (some ("Bearer tok").data) (fun _ => .ok 7)
      (fun _ => []) = .reject 401
    ∧ authenticateToken (some ("Bearer tok").data) (fun _ => .ok 7)
      (fun _ => [⟨7, ("x").data, .manager, false⟩]) = .reject 401 := by
  constructor
  · exact (claim8_stale_identity (some ("Bearer tok").data)
      (fun _ => .ok 7) (fun _ => []) ("tok").data 7 (by decide) rfl
      (Or.inl rfl)).1
  · exact (claim8_stale_identity (some ("Bearer tok").data)
      (fun _ => .ok 7) (fun _ => [⟨7, ("x").data, .manager, false⟩])
      ("tok").data 7 (by decide) rfl
      (Or.inr ⟨⟨7, ("x").data, .manager, false⟩, [], rfl, rfl⟩)).1

/-- C4 (counterexample): the claim promises strictly increasing,
gap-free, fixed-width suffixes for any sequential allocation run.  Two
runs of the lot allocator refute it.  Starting from the persisted state
`[LOT20249999]` (a well-formed state at the 4-digit capacity), two
sequential calls — each result persisted before the next call — both
return `LOT202410000`: the first rolls over to a 5-digit suffix, and the
second still picks `LOT20249999` as the lexicographic maximum, so the
suffixes are neither strictly increasing nor 4 characters wide.  Starting
from `[LOT2024XYZ]` (a matching identifier with a non-numeric suffix),
both calls return `LOT20240001` for the same reason. -/
theorem claim4_counterexample :
    allocSeq (fun db => generateLotNumber 2024 0 (.ok db))
      [("LOT20249999").data] 2
      = [("LOT202410000").data, ("LOT202410000").data]
    ∧ allocSeq (fun db => generateLotNumber 2024 0 (.ok db))
      [("LOT2024XYZ").data] 2
      = [("LOT20240001").data, ("LOT20240001").data] := by
  exact ⟨by decide, by decide⟩

/-- C4 (amended): for every entity kind and fixed prefix, if every
already-persisted identifier matching the prefix is the prefix followed
by a width-padded decimal suffix, and the starting maximum plus the run
length stays below the width capacity (`10^width`), then `N` strictly
sequential allocations with persistence in between produce exactly the
suffixes `max+1, …, max+N` — strictly increasing consecutive integers
with no gaps, each formatted at the fixed width (6 for product codes, 4
for lot, sale and invoice numbers).  Without those provisos the
counterexample applies. -/
theorem claim4_amended (cid : Option Nat)
    (yearL yearS yearI nowP nowL nowS N : Nat)
    (dbP dbL dbS dbI : List (List Char))
    (hP : WFdb (productPfx cid) 6 dbP)
    (hbP : maxSuffix (productPfx cid) dbP + N < 10 ^ 6)
    (hL : WFdb ("LOT".data ++ natChars yearL) 4 dbL)
    (hbL : maxSuffix ("LOT".data ++ natChars yearL) dbL + N < 10 ^ 4)
    (hS : WFdb ("SALE".data ++ natChars yearS) 4 dbS)
    (hbS : maxSuffix ("SALE".data ++ natChars yearS) dbS + N < 10 ^ 4)
    (hI : WFinv yearI dbI)
    (hbI : maxSuffix (invPfx yearI) dbI + N < 10 ^ 4) :
    allocSeq (fun db => generateProductCode cid nowP (.ok db)) dbP N
      = (List.range N).map (fun i => productPfx cid
          ++ padNum 6 (maxSuffix (productPfx cid) dbP + 1 + i))
    ∧ allocSeq (fun db => generateLotNumber yearL nowL (.ok db)) dbL N
      = (List.range N).map (fun i => ("LOT".data ++ natChars yearL)
          ++ padNum 4 (maxSuffix ("LOT".data ++ natChars yearL) dbL + 1 + i))
    ∧ allocSeq (fun db => generateSaleNumber yearS nowS (.ok db)) dbS N
      = (List.range N).map (fun i => ("SALE".data ++ natChars yearS)
          ++ padNum 4 (maxSuffix ("SALE".data ++ natChars yearS) dbS + 1 + i))
    ∧ allocSeq (fun db => invoiceNumberOf yearI db) dbI N
      = (List.range N).map (fun i => invPfx yearI
          ++ padNum 4 (maxSuffix (invPfx yearI) dbI + 1 + i)) := by
  refine ⟨?_, ?_, ?_, ?_⟩
  · exact allocSeq_consecutive _ _ 6 (WFdb (productPfx cid) 6)
      (fun db hwf => genProduct_step cid nowP hwf)
      (fun db n hwf h1 h2 => WFdb_cons hwf h1 h2) N dbP hP hbP
  · exact allocSeq_consecutive _ _ 4
      (WFdb ("LOT".data ++ natChars yearL) 4)
      (fun db hwf => genLot_step yearL nowL hwf)
      (fun db n hwf h1 h2 => WFdb_cons hwf h1 h2) N dbL hL hbL
  · exact allocSeq_consecutive _ _ 4
      (WFdb ("SALE".data ++ natChars yearS) 4)
      (fun db hwf => genSale_step yearS nowS hwf)
      (fun db n hwf h1 h2 => WFdb_cons hwf h1 h2) N dbS hS hbS
  · exact allocSeq_consecutive _ _ 4 (WFinv yearI)
      (fun db hwf => invoice_step yearI hwf)
      (fun db n hwf h1 h2 => WFinv_cons hwf h1 h2) N dbI hI hbI

/-- C4 (witness): the amended statement applied at concrete states —
two sequential lot allocations after `LOT20240007` yield `LOT20240008`
then `LOT20240009`, and two sequential invoice allocations after
`INV-2024-0001` yield `INV-2024-0002` then `INV-2024-0003`. -/
theorem claim4_amended_witness :
    allocSeq (fun db => generateLotNumber 2024 0 (.ok db))
      [("LOT20240007").data] 2
      = [("LOT20240008").data, ("LOT20240009").data]
    ∧ allocSeq (fun db => invoiceNumberOf 2024 db)
      [("INV-2024-0001").data] 2
      = [("INV-2024-0002").data, ("INV-2024-0003").data] := by
  have h := claim4_amended none 2024 2024 2024 0 0 0 2
    [] [("LOT20240007").data] [] [("INV-2024-0001").data]
    (by intro s hs hp; simp at hs)
    (by decide)
    (by
      intro s hs hp
      rw [List.mem_singleton] at hs
      subst hs
      exact ⟨7, by decide, by decide, by decide⟩)
    (by decide)
    (by intro s hs hp; simp at hs)
    (by decide)
    (by
      intro s hs hp
      rw [List.mem_singleton] at hs
      subst hs
      exact ⟨1, by decide, by decide, by decide⟩)
    (by decide)
  constructor
  · rw [h.2.1]
    decide
  · rw [h.2.2.2]
    decide

/-- C5: each source allocator computes exactly the algorithm of the
spec — lexicographically greatest persisted identifier matching the
deterministic prefix, suffix parse defaulting to 0, increment, zero-pad
to the fixed width (6 for product codes, 4 for lot, sale and invoice
numbers), prefix concatenation.  The product, lot and sale allocators
agree with the spec algorithm on every state; the invoice route agrees on
every well-formed invoice table (its `split('-')[2]` parse and its
`LIKE 'INV-year%'` filter read the same data there); and with no
persisted invoices for year 2024 the route returns 200 with
`INV-2024-0001`. -/
theorem claim5_allocator_algorithm (cid : Option Nat)
    (yearL yearS yearI now : Nat) (dbP dbL dbS dbI : List (List Char)) :
    generateProductCode cid now (.ok dbP)
      = specNextIdentifier (productPfx cid) 6 dbP
    ∧ generateLotNumber yearL now (.ok dbL)
      = specNextIdentifier ("LOT".data ++ natChars yearL) 4 dbL
    ∧ generateSaleNumber yearS now (.ok dbS)
      = specNextIdentifier ("SALE".data ++ natChars yearS) 4 dbS
    ∧ (WFinv yearI dbI →
      invoiceNumberOf yearI dbI = specNextIdentifier (invPfx yearI) 4 dbI)
    ∧ generateNumberRoute 2024 (.ok [])
      = (200, some (("INV-2024-0001").data)) := by
  refine ⟨genProduct_eq_spec cid now dbP, genLot_eq_spec yearL now dbL,
    genSale_eq_spec yearS now dbS,
    fun hwf => invoiceNumberOf_eq_spec yearI hwf, by decide⟩

/-- C5 (witness): the invoice conjunct applied at a concrete well-formed
state — with `INV-2024-0007` persisted, the route result equals the spec
algorithm result, which is `INV-2024-0008`. -/
theorem claim5_witness :
    invoiceNumberOf 2024 [("INV-2024-0007").data]
      = specNextIdentifier (invPfx 2024) 4 [("INV-2024-0007").data]
    ∧ invoiceNumberOf 2024 [("INV-2024-0007").data]
      = ("INV-2024-0008").data := by
  have h := (claim5_allocator_algorithm none 2024 2024 2024 0
    [] [] [] [("INV-2024-0007").data]).2.2.2.1
    (by
      intro s hs hp
      rw [List.mem_singleton] at hs
      subst hs
      exact ⟨7, by decide, by decide, by decide⟩)
  exact ⟨h, by decide⟩

/-- C6 (counterexample): the claim says every allocator — invoice
included — answers a throwing lookup with a degraded
prefix-plus-timestamp identifier instead of propagating the failure.
The invoice route does not: on a throwing lookup it responds HTTP 500
with an error body and returns no identifier at all. -/
theorem claim6_counterexample :
    generateNumberRoute 2024 (.error ()) = (500, none) := by
  decide

/-- C6 (amended): on a throwing lookup the product, lot and sale
allocators return their entity tag followed by `Date.now()` (the product
fallback is always `PRD…`, even for a category prefix, and the lot
fallback omits the year), while the invoice route instead responds HTTP
500 with no identifier, propagating the failure to the caller. -/
theorem claim6_amended (cid : Option Nat) (year now : Nat) :
    generateProductCode cid now (.error ()) = "PRD".data ++ natChars now
    ∧ generateLotNumber year now (.error ()) = "LOT".data ++ natChars now
    ∧ generateSaleNumber year now (.error ()) = "SALE".data ++ natChars now
    ∧ generateNumberRoute year (.error ()) = (500, none) :=
  ⟨rfl, rfl, rfl, rfl⟩

/-- C9: a valid self-update by a non-admin succeeds (200) whenever at
least one non-gated field carries a truthy value, and the produced
`UPDATE` applies exactly the truthy-supplied non-gated fields: the
stored `role`, `salary` and `is_active` are unchanged regardless of what
the body supplies for them, while every other supplied (non-empty) field
is written. -/
theorem claim9_self_update (isEmailOk isPhoneOk : List Char → Bool)
    (actor : UserRow) (b : UserUpdateBody) (users : List StoredUser)
    (hrole : actor.role ≠ .admin)
    (hvalid : bodyValid isEmailOk isPhoneOk b = true)
    (hexists : (users.any fun u => u.id == actor.id) = true)
    (hemail : truthy b.email = true →
      (users.any fun u =>
        u.email == b.email.getD [] && u.id != actor.id) = false)
    (happ : (truthy b.firstName || truthy b.lastName || truthy b.email ||
      truthy b.department || truthy b.position || truthy b.phone ||
      truthy b.address) = true) :
    usersPut isEmailOk isPhoneOk actor actor.id b users
      = .success (users.map fun u =>
          if u.id == actor.id then applyUserUpdate actor.role b u else u)
    ∧ ∀ u : StoredUser,
        (applyUserUpdate actor.role b u).role = u.role
        ∧ (applyUserUpdate actor.role b u).salary = u.salary
        ∧ (applyUserUpdate actor.role b u).is_active = u.is_active
        ∧ (∀ s, s ≠ [] → b.firstName = some s →
            (applyUserUpdate actor.role b u).first_name = s)
        ∧ (∀ s, s ≠ [] → b.lastName = some s →
            (applyUserUpdate actor.role b u).last_name = s)
        ∧ (∀ s, s ≠ [] → b.email = some s →
            (applyUserUpdate actor.role b u).email = s)
        ∧ (∀ s, s ≠ [] → b.department = some s →
            (applyUserUpdate actor.role b u).department = s)
        ∧ (∀ s, s ≠ [] → b.position = some s →
            (applyUserUpdate actor.role b u).position = s)
        ∧ (∀ s, s ≠ [] → b.phone = some s →
            (applyUserUpdate actor.role b u).phone = s)
        ∧ (∀ s, s ≠ [] → b.address = some s →
            (applyUserUpdate actor.role b u).address = s) := by
  constructor
  · have hem : (truthy b.email && users.any fun u =>
        u.email == b.email.getD [] && u.id != actor.id) = false := by
      cases ht : truthy b.email
      · simp [ht]
      · simp [ht, hemail ht]
    have hadmin : (actor.role == Role.admin) = false := by
      rw [beq_eq_false_iff_ne]
      exact hrole
    have hhas : hasUpdateFields actor.role b = true := by
      unfold hasUpdateFields
      rw [hadmin]
      simp only [Bool.and_false, Bool.or_false]
      exact happ
    have hperm : ¬ (actor.role ≠ Role.admin ∧ actor.id ≠ actor.id) := by
      simp
    unfold usersPut
    rw [hvalid, hexists, hem, hhas]
    simp [hperm]
  · intro u
    refine ⟨?_, ?_, ?_, ?_, ?_, ?_, ?_, ?_, ?_, ?_⟩
    · cases hb : b.role <;> simp [applyUserUpdate, hb, hrole]
    · cases hb : b.salary <;> simp [applyUserUpdate, hb, hrole]
    · cases hb : b.isActive <;> simp [applyUserUpdate, hb, hrole]
    · intro s hne hsome
      simp [applyUserUpdate, hsome, updStr_of_some hne]
    · intro s hne hsome
      simp [applyUserUpdate, hsome, updStr_of_some hne]
    · intro s hne hsome
      simp [applyUserUpdate, hsome, updStr_of_some hne]
    · intro s hne hsome
      simp [applyUserUpdate, hsome, updStr_of_some hne]
    · intro s hne hsome
      simp [applyUserUpdate, hsome, updStr_of_some hne]
    · intro s hne hsome
      simp [applyUserUpdate, hsome, updStr_of_some hne]
    · intro s hne hsome
      simp [applyUserUpdate, hsome, updStr_of_some hne]

/-- C9 (witness): a concrete non-admin self-update supplying
`firstName`, `role`, `salary` and `isActive` succeeds with only
`first_name` changed — `role`, `salary` and `is_active` keep their
stored values. -/
theorem claim9_witness :
    usersPut (fun _ => true) (fun _ => true)
      ⟨1, ("a").data, .employee, true⟩ 1
      ⟨some ("Ada").data, none, none, some .admin, none, none, none, none,
        some 999, some false⟩
      [⟨1, ("Old").data, ("Name").data, ("o").data, .employee,
        ("D").data, ("P").data, ("ph").data, ("ad").data, 5, true⟩]
      = .success [⟨1, ("Ada").data, ("Name").data, ("o").data, .employee,
        ("D").data, ("P").data, ("ph").data, ("ad").data, 5, true⟩] := by
  have h := claim9_self_update (fun _ => true) (fun _ => true)
    ⟨1, ("a").data, .employee, true⟩
    ⟨some ("Ada").data, none, none, some .admin, none, none, none, none,
      some 999, some false⟩
    [⟨1, ("Old").data, ("Name").data, ("o").data, .employee,
      ("D").data, ("P").data, ("ph").data, ("ad").data, 5, true⟩]
    (by decide) (by decide) (by decide)
    (fun h => absurd h (by decide)) (by decide)
  exact h.1.trans (by decide)

/-- C10: for every sale request, each sold product row has its
`current_stock` decremented by the total quantity sold of that product —
unconditionally, with no sufficiency check, so the result can be
negative — and exactly one `out`-typed `stock_movements` row referencing
the sale is appended per item.  The third conjunct shows a concrete sale
driving a stock of 3 to -2. -/
theorem claim10_sale_effects (uid saleId : Nat) (saleNumber : List Char)
    (totalAmount : Int) (items : List SaleItemInput) (db : InvDb) :
    (salesPost uid saleId saleNumber totalAmount items db).products
      = db.products.map (fun p =>
          { p with current_stock := p.current_stock - soldQty items p.id })
    ∧ (salesPost uid saleId saleNumber totalAmount items db).stock_movements
      = db.stock_movements ++ items.map (outMovement saleId uid)
    ∧ (salesPost 1 1 ("S1").data 0 [⟨10, 5, 2, none, none, 10⟩]
        ⟨[⟨10, 3⟩], [], [], []⟩).products = [⟨10, -2⟩] := by
  refine ⟨?_, ?_, by decide⟩
  · unfold salesPost
    rw [foldl_process_products]
  · unfold salesPost
    rw [foldl_process_movements]

end CySystems
